import Mathlib

/-!
# Verification of the CropWise chart normalization logic

Shallow embedding of the computational core of `static/js/charts.js`:
the range normalizer (`normalize`, the inline interval normalization in
`createRangeChart` and `createParameterComparisonChart`), the top-k
confidence sort in `createConfidenceChart`, and the chart-handle
destroy-then-create lifecycle shared by the three chart constructors.
Numbers are modelled as rationals.
-/

namespace CropWise

/-- Embeds `normalize` (charts.js lines 86-88):
`(value, min, max) => ((value - min) / (max - min)) * 100`. -/
def normalize (value lo hi : ℚ) : ℚ :=
  (value - lo) / (hi - lo) * 100

/-- Embeds the inline per-parameter computation of `createRangeChart`
(charts.js lines 280-283): `totalRange = hi - lo`,
`minPercent = ((min - lo) / totalRange) * 100`,
`maxPercent = ((max - lo) / totalRange) * 100`,
`rangeWidth = maxPercent - minPercent`; the result is the pair
`(startPosition, rangeWidth)` stored in the mapped datum (lines 290-291).
The spec names this operation `normalizeInterval`. -/
def normalizeInterval (mn mx lo hi : ℚ) : ℚ × ℚ :=
  let totalRange := hi - lo
  let minPercent := (mn - lo) / totalRange * 100
  let maxPercent := (mx - lo) / totalRange * 100
  (minPercent, maxPercent - minPercent)

/-- A label paired with its numeric score, one element of the
`combinedData` array built at charts.js line 10
(`crops.map((crop, i) => ({ crop, score: scores[i] }))`). -/
structure ScoreEntry where
  label : String
  score : ℚ
deriving DecidableEq

/-- The ordering used by the sort at charts.js line 11,
`combinedData.sort((a, b) => b.score - a.score)`: entry `a` is placed no
later than entry `b` exactly when `b.score - a.score ≤ 0`. -/
def scoreGE (a b : ScoreEntry) : Prop :=
  b.score ≤ a.score

instance : DecidableRel scoreGE :=
  fun a b => inferInstanceAs (Decidable (b.score ≤ a.score))

instance : IsTotal ScoreEntry scoreGE :=
  ⟨fun a b => le_total b.score a.score⟩

instance : IsTrans ScoreEntry scoreGE :=
  ⟨fun _ _ _ hab hbc => le_trans hbc hab⟩

/-- Embeds the sort-then-slice logic of `createConfidenceChart`
(charts.js lines 10-15): stable descending sort by score
(`combinedData.sort((a, b) => b.score - a.score)`; JavaScript
`Array.prototype.sort` is required to be stable, which the stable
insertion sort realizes) followed by `.slice(0, k)` (`k = 5` at the call
site, generalized here). The spec names this operation `topK`. -/
def topK (s : List ScoreEntry) (k : Nat) : List ScoreEntry :=
  (s.insertionSort scoreGE).take k

/-- A horizontal bar as handed to the charting library: where it starts
on the axis and how far it extends. -/
structure Bar where
  offset : ℚ
  extent : ℚ
deriving DecidableEq

/-- An optimal interval `[pmin, pmax]` inside a parameter domain
`[lo, hi]`, the data one entry of the `parameters` arrays carries
(charts.js lines 269-275 and 91-99 with the matching conditions). -/
structure ParamRange where
  pmin : ℚ
  pmax : ℚ
  lo : ℚ
  hi : ℚ
deriving DecidableEq

/-- The bar for one parameter in the range chart dataset
(charts.js lines 299-311): the dataset sets
`data: data.map(d => d.rangeWidth)` as the bar value and
`base: data.map(d => d.startPosition)` as the bar base, so the bar
carries the offset and the extent of the normalized interval. -/
def rangeChartBar (p : ParamRange) : Bar :=
  { offset := (normalizeInterval p.pmin p.pmax p.lo p.hi).1
    extent := (normalizeInterval p.pmin p.pmax p.lo p.hi).2 }

/-- The bar for one parameter in the Optimal Range dataset of
`createParameterComparisonChart` (charts.js lines 173-188): the dataset
sets only `data: [optimalRangeWidth...]` (the widths computed at lines
135-143 as `normalizedOptimalMax - normalizedOptimalMin`) and no `base`
property, so the bar is drawn from the axis origin 0 with the width as
its extent. -/
def comparisonOptimalBar (p : ParamRange) : Bar :=
  { offset := 0
    extent := normalize p.pmax p.lo p.hi - normalize p.pmin p.lo p.hi }

/-! ## Chart-handle lifecycle

The three chart constructors share the pattern (charts.js lines 24-28,
150-154, 295-299): test the global slot for the canvas, call `destroy()`
on the stored chart object when present, then assign a freshly
constructed chart object to the slot. We model the global slots
(`window.confidenceChart`, `window.parameterChart`, `window.rangeChart`),
the set of chart objects that are currently alive, and a counter issuing
fresh object identities. -/

/-- The three canvases the file draws on: `confidence-chart`
(line 3), `parameter-chart` (line 70) and `range-chart` (line 265). -/
inductive Canvas where
  | confidence
  | parameter
  | range
deriving DecidableEq

/-- A live chart object: its identity and the canvas it is attached to. -/
structure ChartObj where
  id : Nat
  canvas : Canvas
deriving DecidableEq

/-- The rendering-layer state: one global slot per canvas (the `window.*`
variables), the list of chart objects not yet destroyed, and the next
fresh identity. -/
structure RenderState where
  handle : Canvas → Option Nat
  live : List ChartObj
  next : Nat

/-- Effect of `chart.destroy()`: the chart object with identity `h`
stops being alive. -/
def destroyChart (h : Nat) (s : RenderState) : RenderState :=
  { s with live := s.live.filter (fun p => p.id != h) }

/-- Effect of `window.x = new Chart(ctx, ...)` on canvas `c`: a fresh
chart object is created on `c` and stored in the slot for `c`. -/
def newChart (c : Canvas) (s : RenderState) : RenderState :=
  { handle := fun c2 => if c2 = c then some s.next else s.handle c2
    live := ⟨s.next, c⟩ :: s.live
    next := s.next + 1 }

/-- The conditional destroy step, `if (window.x) { window.x.destroy(); }`
(charts.js lines 24-26, 150-152, 295-297). -/
def destroyPhase (c : Canvas) (s : RenderState) : RenderState :=
  match s.handle c with
  | some h => destroyChart h s
  | none => s

/-- A full redraw of canvas `c`: conditional destroy followed by the
creation and storage of the new chart. -/
def redrawOn (c : Canvas) (s : RenderState) : RenderState :=
  newChart c (destroyPhase c s)

/-- The chart-lifecycle effect of `createConfidenceChart`
(charts.js lines 24-28). -/
def createConfidenceChart (s : RenderState) : RenderState :=
  redrawOn Canvas.confidence s

/-- The chart-lifecycle effect of `createParameterComparisonChart`
(charts.js lines 150-154). -/
def createParameterComparisonChart (s : RenderState) : RenderState :=
  redrawOn Canvas.parameter s

/-- The chart-lifecycle effect of `createRangeChart`
(charts.js lines 295-299). -/
def createRangeChart (s : RenderState) : RenderState :=
  redrawOn Canvas.range s

/-- The live chart objects attached to canvas `c`. -/
def liveOn (s : RenderState) (c : Canvas) : List ChartObj :=
  s.live.filter (fun p => p.canvas == c)

/-- The global slots track the live chart objects: every live chart is
the one its canvas slot stores, and all issued identities are below the
fresh counter. -/
def HandleTracks (s : RenderState) : Prop :=
  (∀ p ∈ s.live, s.handle p.canvas = some p.id) ∧
  (∀ p ∈ s.live, p.id < s.next)

/-- At most one live chart object per canvas. -/
def AtMostOneLive (s : RenderState) : Prop :=
  ∀ c, (liveOn s c).length ≤ 1

/-- The page state before any chart has been drawn: empty slots, no live
chart objects. -/
def initState : RenderState :=
  { handle := fun _ => none
    live := []
    next := 0 }

/-! ## Claim theorems: normalization arithmetic -/

/-- C1: for every `value, lo, hi` with `lo < hi`, `normalize` returns
exactly `(value - lo) / (hi - lo) * 100`, unclamped; in particular
`normalize lo lo hi = 0`, `normalize hi lo hi = 100`, and
`normalize 70 0 140 = 50`. -/
theorem normalize_exact_and_endpoints :
    (∀ value lo hi : ℚ, lo < hi →
        normalize value lo hi = (value - lo) / (hi - lo) * 100 ∧
        normalize lo lo hi = 0 ∧ normalize hi lo hi = 100) ∧
    normalize 70 0 140 = 50 := by
  constructor
  · intro value lo hi h
    have hne : hi - lo ≠ 0 := sub_ne_zero.mpr h.ne'
    refine ⟨rfl, by simp [normalize], ?_⟩
    simp only [normalize]
    rw [div_self hne, one_mul]
  · norm_num [normalize]

/-- Witness for C1 at `value = 70`, `lo = 0`, `hi = 140`. -/
theorem normalize_exact_and_endpoints_witness :
    (0:ℚ) < 140 ∧
      (normalize 70 0 140 = (70 - 0) / (140 - 0) * 100 ∧
       normalize 0 0 140 = 0 ∧ normalize 140 0 140 = 100) :=
  ⟨by norm_num, normalize_exact_and_endpoints.1 70 0 140 (by norm_num)⟩

/-- C2: for every `mn, mx, lo, hi` with `lo < hi`, `normalizeInterval`
returns the pair whose first component is `normalize mn lo hi` and whose
second is `normalize mx lo hi - normalize mn lo hi`; in particular
`normalizeInterval 20 40 0 100 = (20, 20)`. -/
theorem normalizeInterval_components :
    (∀ mn mx lo hi : ℚ, lo < hi →
        normalizeInterval mn mx lo hi =
          (normalize mn lo hi, normalize mx lo hi - normalize mn lo hi)) ∧
    normalizeInterval 20 40 0 100 = (20, 20) := by
  constructor
  · intro mn mx lo hi _
    rfl
  · norm_num [normalizeInterval]

/-- Witness for C2 at `mn = 20`, `mx = 40`, `lo = 0`, `hi = 100`. -/
theorem normalizeInterval_components_witness :
    (0:ℚ) < 100 ∧
      normalizeInterval 20 40 0 100 =
        (normalize 20 0 100, normalize 40 0 100 - normalize 20 0 100) :=
  ⟨by norm_num, normalizeInterval_components.1 20 40 0 100 (by norm_num)⟩

/-- C3: for every `mn, mx, lo, hi` with `lo < hi` and `mn ≤ mx`, the
width component of `normalizeInterval mn mx lo hi` is nonnegative. -/
theorem normalizeInterval_width_nonneg :
    ∀ mn mx lo hi : ℚ, lo < hi → mn ≤ mx →
      0 ≤ (normalizeInterval mn mx lo hi).2 := by
  intro mn mx lo hi hlh hmm
  have ht : (0:ℚ) < hi - lo := sub_pos.mpr hlh
  have hw : (normalizeInterval mn mx lo hi).2 = (mx - mn) / (hi - lo) * 100 := by
    simp only [normalizeInterval]
    ring
  rw [hw]
  exact mul_nonneg (div_nonneg (by linarith) ht.le) (by norm_num)

/-- Witness for C3 at `mn = 20`, `mx = 60`, `lo = 0`, `hi = 140`. -/
theorem normalizeInterval_width_nonneg_witness :
    ((0:ℚ) < 140 ∧ (20:ℚ) ≤ 60) ∧ 0 ≤ (normalizeInterval 20 60 0 140).2 :=
  ⟨⟨by norm_num, by norm_num⟩,
    normalizeInterval_width_nonneg 20 60 0 140 (by norm_num) (by norm_num)⟩

/-- C5: for every `lo < hi`, `normalize` is strictly increasing in its
value argument. -/
theorem normalize_strict_mono :
    ∀ v1 v2 lo hi : ℚ, lo < hi → v1 < v2 →
      normalize v1 lo hi < normalize v2 lo hi := by
  intro v1 v2 lo hi hlh hv
  have ht : (0:ℚ) < hi - lo := sub_pos.mpr hlh
  have hinv : (0:ℚ) < (hi - lo)⁻¹ := inv_pos.mpr ht
  simp only [normalize, div_eq_mul_inv]
  exact mul_lt_mul_of_pos_right
    (mul_lt_mul_of_pos_right (by linarith) hinv) (by norm_num)

/-- Witness for C5 at `v1 = 1`, `v2 = 2`, `lo = 0`, `hi = 4`. -/
theorem normalize_strict_mono_witness :
    ((0:ℚ) < 4 ∧ (1:ℚ) < 2) ∧ normalize 1 0 4 < normalize 2 0 4 :=
  ⟨⟨by norm_num, by norm_num⟩,
    normalize_strict_mono 1 2 0 4 (by norm_num) (by norm_num)⟩

/-- C10: for every `lo < hi`, the width component of
`normalizeInterval mn mx lo hi` equals `(mx - mn) / (hi - lo) * 100`, so
it depends only on the difference `mx - mn` and is invariant under
translating the interval by any `d`. -/
theorem normalizeInterval_width_translation :
    ∀ mn mx lo hi d : ℚ, lo < hi →
      (normalizeInterval mn mx lo hi).2 = (mx - mn) / (hi - lo) * 100 ∧
      (normalizeInterval (mn + d) (mx + d) lo hi).2 =
        (normalizeInterval mn mx lo hi).2 := by
  intro mn mx lo hi d _
  constructor
  · simp only [normalizeInterval]
    ring
  · simp only [normalizeInterval]
    ring

/-- Witness for C10 at `mn = 10`, `mx = 30`, `lo = 0`, `hi = 50`,
`d = 5`. -/
theorem normalizeInterval_width_translation_witness :
    (0:ℚ) < 50 ∧
      ((normalizeInterval 10 30 0 50).2 = (30 - 10) / (50 - 0) * 100 ∧
       (normalizeInterval (10 + 5) (30 + 5) 0 50).2 =
         (normalizeInterval 10 30 0 50).2) :=
  ⟨by norm_num, normalizeInterval_width_translation 10 30 0 50 5 (by norm_num)⟩

/-! ## Claim theorems: chart datasets -/

/-- C7 counterexample: in the parameter-comparison chart the Optimal
Range bar does not carry the start offset of the normalized interval.
At the interval `[20, 40]` inside the domain `[0, 100]` the interval
normalizes to start `20`, but the dataset bar starts at `0` because the
code sets only the width as the bar value and no `base`. -/
theorem comparison_chart_offset_counterexample :
    (comparisonOptimalBar ⟨20, 40, 0, 100⟩).offset ≠
      (normalizeInterval 20 40 0 100).1 := by
  norm_num [comparisonOptimalBar, normalizeInterval]

/-- C7 amended: the range chart dataset carries both components of the
normalized interval (bar value `rangeWidth`, bar base `startPosition`),
while the parameter-comparison chart carries only the width component:
its Optimal Range bar extends from offset `0`. -/
theorem chart_bar_components :
    ∀ p : ParamRange,
      rangeChartBar p =
        { offset := (normalizeInterval p.pmin p.pmax p.lo p.hi).1
          extent := (normalizeInterval p.pmin p.pmax p.lo p.hi).2 } ∧
      comparisonOptimalBar p =
        { offset := 0
          extent := (normalizeInterval p.pmin p.pmax p.lo p.hi).2 } := by
  intro p
  exact ⟨rfl, rfl⟩

/-! ## Chart-handle lifecycle lemmas -/

lemma destroyPhase_handle (c : Canvas) (s : RenderState) :
    (destroyPhase c s).handle = s.handle := by
  unfold destroyPhase
  cases s.handle c <;> rfl

lemma destroyPhase_next (c : Canvas) (s : RenderState) :
    (destroyPhase c s).next = s.next := by
  unfold destroyPhase
  cases s.handle c <;> rfl

lemma destroyPhase_live_sublist (c : Canvas) (s : RenderState) :
    List.Sublist (destroyPhase c s).live s.live := by
  unfold destroyPhase
  cases s.handle c with
  | none => exact List.Sublist.refl _
  | some h => exact List.filter_sublist s.live

lemma liveOn_destroyPhase_self (c : Canvas) (s : RenderState)
    (hs : HandleTracks s) : liveOn (destroyPhase c s) c = [] := by
  obtain ⟨htrack, _⟩ := hs
  unfold destroyPhase
  cases hc : s.handle c with
  | none =>
    simp only [liveOn]
    rw [List.filter_eq_nil_iff]
    intro p hp hpc
    have hceq : p.canvas = c := by simpa using hpc
    have := htrack p hp
    rw [hceq, hc] at this
    exact Option.noConfusion this
  | some h =>
    simp only [liveOn, destroyChart]
    rw [List.filter_eq_nil_iff]
    intro p hp hpc
    rw [List.mem_filter] at hp
    obtain ⟨hpl, hpid⟩ := hp
    have hceq : p.canvas = c := by simpa using hpc
    have htr := htrack p hpl
    rw [hceq, hc] at htr
    have hid : h = p.id := Option.some.inj htr
    simp [hid] at hpid

/-- C9: every redraw of a canvas first leaves no live chart on that
canvas (the conditional destroy removes the previously created chart
object when one exists) and then creates the new one, and the
at-most-one-live-chart-per-canvas invariant is preserved together with
the slot-tracking invariant. -/
theorem redraw_destroys_before_create :
    ∀ (c : Canvas) (s : RenderState), HandleTracks s → AtMostOneLive s →
      liveOn (destroyPhase c s) c = [] ∧
      HandleTracks (redrawOn c s) ∧
      AtMostOneLive (redrawOn c s) := by
  intro c s hs hone
  have hd : liveOn (destroyPhase c s) c = [] := liveOn_destroyPhase_self c s hs
  obtain ⟨htrack, hfresh⟩ := hs
  have hsub := destroyPhase_live_sublist c s
  refine ⟨hd, ⟨?_, ?_⟩, ?_⟩
  · intro p hp
    simp only [redrawOn, newChart, List.mem_cons] at hp
    rcases hp with h1 | h1
    · subst h1
      simp [redrawOn, newChart, destroyPhase_next]
    · have hpc : p.canvas ≠ c := by
        intro hceq
        have hmem : p ∈ liveOn (destroyPhase c s) c := by
          simp [liveOn, List.mem_filter, h1, hceq]
        rw [hd] at hmem
        exact absurd hmem (List.not_mem_nil p)
      simp only [redrawOn, newChart, if_neg hpc, destroyPhase_handle,
        destroyPhase_next]
      exact htrack p (hsub.subset h1)
  · intro p hp
    simp only [redrawOn, newChart, List.mem_cons] at hp
    simp only [redrawOn, newChart, destroyPhase_next]
    rcases hp with h1 | h1
    · subst h1
      simp [destroyPhase_next]
    · have := hfresh p (hsub.subset h1)
      omega
  · intro c2
    by_cases hcc : c2 = c
    · subst hcc
      have : liveOn (redrawOn c2 s) c2 =
          ChartObj.mk (destroyPhase c2 s).next c2 :: liveOn (destroyPhase c2 s) c2 := by
        simp [redrawOn, newChart, liveOn]
      rw [this, hd]
      simp
    · have heq : liveOn (redrawOn c s) c2 = liveOn (destroyPhase c s) c2 := by
        simp only [redrawOn, newChart, liveOn, List.filter_cons]
        have : ((ChartObj.mk (destroyPhase c s).next c).canvas == c2) = false := by
          simp [BEq.beq]
          intro hx
          exact absurd hx.symm hcc
        simp [this]
      rw [heq]
      calc (liveOn (destroyPhase c s) c2).length
          ≤ (liveOn s c2).length := (hsub.filter _).length_le
        _ ≤ 1 := hone c2

/-- Witness for C9: both invariants hold in the initial page state and
the theorem applies to the first draw on the confidence canvas. -/
theorem redraw_destroys_before_create_witness :
    (HandleTracks initState ∧ AtMostOneLive initState) ∧
      (liveOn (destroyPhase Canvas.confidence initState) Canvas.confidence = [] ∧
       HandleTracks (redrawOn Canvas.confidence initState) ∧
       AtMostOneLive (redrawOn Canvas.confidence initState)) := by
  have h1 : HandleTracks initState := by
    constructor <;> intro p hp <;> exact absurd hp (List.not_mem_nil p)
  have h2 : AtMostOneLive initState := by
    intro c
    simp [liveOn, initState]
  exact ⟨⟨h1, h2⟩, redraw_destroys_before_create Canvas.confidence initState h1 h2⟩

/-! ## Stability of the confidence sort

JavaScript `Array.prototype.sort` is stable, so entries with equal
scores keep their insertion order. In the embedding this is the fact
that filtering the sorted list down to any single score value returns
exactly the same list as filtering the input. -/

lemma filter_score_orderedInsert (c : ℚ) (x : ScoreEntry)
    (l : List ScoreEntry) :
    (l.orderedInsert scoreGE x).filter (fun p => decide (p.score = c)) =
      if x.score = c then
        x :: l.filter (fun p => decide (p.score = c))
      else l.filter (fun p => decide (p.score = c)) := by
  induction l with
  | nil =>
    by_cases hx : x.score = c <;> simp [List.orderedInsert, hx]
  | cons b l ih =>
    simp only [List.orderedInsert]
    by_cases hb : scoreGE x b
    · rw [if_pos hb]
      by_cases hx : x.score = c <;> simp [List.filter_cons, hx]
    · rw [if_neg hb]
      by_cases hx : x.score = c
      · have hbc : ¬b.score = c := by
          intro hbceq
          exact hb (le_of_eq (hbceq.trans hx.symm))
        simp [List.filter_cons, hbc, hx, ih]
      · by_cases hbc : b.score = c <;> simp [List.filter_cons, hbc, hx, ih]

lemma filter_score_insertionSort (c : ℚ) (l : List ScoreEntry) :
    (l.insertionSort scoreGE).filter (fun p => decide (p.score = c)) =
      l.filter (fun p => decide (p.score = c)) := by
  induction l with
  | nil => rfl
  | cons b l ih =>
    simp only [List.insertionSort]
    rw [filter_score_orderedInsert]
    by_cases hb : b.score = c
    · rw [if_pos hb, ih]
      simp [List.filter_cons, hb]
    · rw [if_neg hb, ih]
      simp [List.filter_cons, hb]

/-! ## Claim theorems: top-k confidence selection -/

/-- C4: `topK` applied to an association list of labelled scores returns
the `k` highest-scoring entries: it is the `k`-element prefix of the
stable descending sort of the input, it is sorted descending by score,
together with the dropped suffix it is a permutation of the input, every
kept entry scores at least as high as every dropped entry, and entries
with any fixed score keep their insertion order (stability); in
particular on `{wheat: 90, rice: 85, maize: 95}` with `k = 2` it returns
`[(maize, 95), (wheat, 90)]`. -/
theorem topK_spec :
    (∀ (s : List ScoreEntry) (k : Nat),
        topK s k = (s.insertionSort scoreGE).take k ∧
        (topK s k).length = min k s.length ∧
        (topK s k).Sorted scoreGE ∧
        (topK s k ++ (s.insertionSort scoreGE).drop k).Perm s ∧
        (∀ x ∈ topK s k, ∀ y ∈ (s.insertionSort scoreGE).drop k,
            y.score ≤ x.score) ∧
        (∀ c : ℚ,
            (s.insertionSort scoreGE).filter (fun p => decide (p.score = c)) =
              s.filter (fun p => decide (p.score = c)))) ∧
    topK [⟨"wheat", 90⟩, ⟨"rice", 85⟩, ⟨"maize", 95⟩] 2 =
      [⟨"maize", 95⟩, ⟨"wheat", 90⟩] := by
  constructor
  · intro s k
    have hsorted := List.sorted_insertionSort scoreGE s
    refine ⟨rfl, ?_, ?_, ?_, ?_, ?_⟩
    · rw [topK, List.length_take, List.length_insertionSort]
    · exact List.Pairwise.sublist (List.take_sublist k _) hsorted
    · rw [topK, List.take_append_drop]
      exact List.perm_insertionSort scoreGE s
    · have hpa := hsorted
      rw [← List.take_append_drop k (s.insertionSort scoreGE)] at hpa
      exact fun x hx y hy => (List.pairwise_append.mp hpa).2.2 x hx y hy
    · exact fun c => filter_score_insertionSort c s
  · decide

/-- Witness for C4: the kept/dropped score comparison applied at a
concrete input, with both memberships discharged by evaluation. -/
theorem topK_spec_witness :
    (ScoreEntry.mk "b" 2 ∈ topK [⟨"a", 1⟩, ⟨"b", 2⟩] 1 ∧
      ScoreEntry.mk "a" 1 ∈
        (([⟨"a", 1⟩, ⟨"b", 2⟩] : List ScoreEntry).insertionSort scoreGE).drop 1) ∧
    (ScoreEntry.mk "a" 1).score ≤ (ScoreEntry.mk "b" 2).score := by
  have hm1 : ScoreEntry.mk "b" 2 ∈ topK [⟨"a", 1⟩, ⟨"b", 2⟩] 1 := by decide
  have hm2 : ScoreEntry.mk "a" 1 ∈
      (([⟨"a", 1⟩, ⟨"b", 2⟩] : List ScoreEntry).insertionSort scoreGE).drop 1 := by
    decide
  exact ⟨⟨hm1, hm2⟩, ((topK_spec.1 _ 1).2.2.2.2.1) _ hm1 _ hm2⟩

/-- C8: `topK` leaves an already-sorted-descending list of length at
most `k` unchanged, and consequently `topK (topK s k) k = topK s k` for
every input. -/
theorem topK_idempotent :
    (∀ (l : List ScoreEntry) (k : Nat),
        l.Sorted scoreGE → l.length ≤ k → topK l k = l) ∧
    (∀ (s : List ScoreEntry) (k : Nat), topK (topK s k) k = topK s k) := by
  have part1 : ∀ (l : List ScoreEntry) (k : Nat),
      l.Sorted scoreGE → l.length ≤ k → topK l k = l := by
    intro l k hsort hlen
    rw [topK, hsort.insertionSort_eq]
    exact List.take_of_length_le hlen
  refine ⟨part1, fun s k => part1 _ _ ?_ ?_⟩
  · exact List.Pairwise.sublist (List.take_sublist k _)
      (List.sorted_insertionSort scoreGE s)
  · rw [topK, List.length_take]
    exact min_le_left _ _

/-- Witness for C8: a sorted singleton below the cutoff is returned
unchanged. -/
theorem topK_idempotent_witness :
    (([⟨"a", 5⟩] : List ScoreEntry).Sorted scoreGE ∧
      ([⟨"a", 5⟩] : List ScoreEntry).length ≤ 2) ∧
    topK [⟨"a", 5⟩] 2 = [⟨"a", 5⟩] := by
  have h1 : ([⟨"a", 5⟩] : List ScoreEntry).Sorted scoreGE :=
    List.sorted_singleton _
  have h2 : ([⟨"a", 5⟩] : List ScoreEntry).length ≤ 2 := by simp
  exact ⟨⟨h1, h2⟩, topK_idempotent.1 _ 2 h1 h2⟩

end CropWise
